import Mathlib

/-!
# Verification of the DataStore driver (datalayer primitives)

A shallow embedding of `crates/chia-sdk-driver/src/primitives/datalayer/datastore.rs`
and the pieces of its environment it relies on.

Modelling conventions:
* 32-byte values (`Bytes32`) and all hashes live in the free term algebra `B32`.
  Hash-producing operations (`coin_id`, curried tree hashes of the singleton /
  state / delegation layers, the merkle root) are injective constructors of this
  algebra, which mirrors collision-freeness of the underlying hash.
* CLVM programs that the driver builds or probes are the layered shapes
  `Prog`; an arbitrary innermost puzzle is `Prog.leafPz id`, whose behaviour
  under execution is supplied by an environment `PuzzleEnv` mapping the
  program id and the solution it is run against to the emitted conditions
  (the spec's external "puzzle execution facade").
* Serialization of puzzles/solutions into a `CoinSpend` is modelled as the
  identity (serialization failures are outside the modelled domain).
* Machine integers (`u64` amounts and fees) are `Nat`; the only arithmetic the
  driver performs on them is parity and byte decomposition, so no wrap-around
  is involved.
-/

/-- The free algebra of 32-byte values and hashes. -/
inductive B32 where
  /-- A literal byte string (used for concrete inputs). -/
  | raw (bs : List Nat)
  /-- `SINGLETON_LAUNCHER_PUZZLE_HASH`. -/
  | launcherConst
  /-- `DL_METADATA_UPDATER_PUZZLE_HASH`. -/
  | dlUpdater
  /-- `Coin::coin_id`: hash of parent coin info, puzzle hash and amount. -/
  | coinId (parentCoinInfo puzzleHash : B32) (amount : Nat)
  /-- `SingletonArgs::curry_tree_hash launcher_id inner_puzzle_hash`. -/
  | currySingleton (launcherId innerHash : B32)
  /-- Curried tree hash of the NFT state layer over metadata hash, metadata
  updater hash and inner puzzle hash. -/
  | curryState (metadataHash updaterHash innerHash : B32)
  /-- `DelegationLayerArgs::curry_tree_hash launcher_id owner_puzzle_hash merkle_root`. -/
  | curryDeleg (launcherId ownerHash merkleRoot : B32)
  /-- Tree hash of an arbitrary innermost puzzle, identified by its id. -/
  | leafHash (id : Nat)
  /-- Tree hash of a metadata value. -/
  | mdHash (rootHash : B32) (extra : Nat)
  /-- Merkle tree node combination. -/
  | merkleNode (elem acc : B32)
  /-- Merkle root of the empty set. -/
  | merkleNil
  /-- Curried hash of an admin delegated puzzle. -/
  | adminCurry (innerPuzzleHash : B32)
  /-- Curried hash of a writer delegated puzzle. -/
  | writerCurry (innerPuzzleHash : B32)
  /-- Curried hash of an oracle delegated puzzle. -/
  | oracleCurry (puzzleHash : B32) (fee : Nat)
  deriving DecidableEq

/-- `Coin { parent_coin_info, puzzle_hash, amount }`. -/
structure Coin where
  parent_coin_info : B32
  puzzle_hash : B32
  amount : Nat
  deriving DecidableEq

/-- `Coin::coin_id`. -/
def Coin.coinId (c : Coin) : B32 :=
  .coinId c.parent_coin_info c.puzzle_hash c.amount

/-- `Proof`: eve or lineage proof for a singleton coin. -/
inductive ProofT where
  | eve (parent_parent_coin_info : B32) (parent_amount : Nat)
  | lineage (parent_parent_coin_info parent_inner_puzzle_hash : B32) (parent_amount : Nat)
  deriving DecidableEq

/-- Modelled from the spec: `DataStoreMetadata` (not under `src/`) — a root
hash plus further versioned fields, which we collapse into one `extra`
component; it supports tree hashing and a `root_hash_only` constructor. -/
structure Metadata where
  rootHash : B32
  extra : Nat
  deriving DecidableEq

/-- Modelled from the spec: the `root_hash_only` metadata constructor. -/
def Metadata.rootHashOnly (r : B32) : Metadata := ⟨r, 0⟩

/-- Tree hash of a metadata value. -/
def Metadata.treeHash (m : Metadata) : B32 := .mdHash m.rootHash m.extra

/-- `DelegatedPuzzle`: `Admin | Writer | Oracle` (declared outside `src/`;
shape as used by `datastore.rs` and described in the spec's data model). -/
inductive DelegatedPuzzle where
  | admin (inner_puzzle_hash : B32)
  | writer (inner_puzzle_hash : B32)
  | oracle (oracle_puzzle_hash : B32) (fee : Nat)
  deriving DecidableEq

/-- Modelled from the spec (§4.2): each delegated puzzle's curried
inner-puzzle hash, the merkle tree leaf for the authorization set. -/
def DelegatedPuzzle.puzzleHash : DelegatedPuzzle → B32
  | .admin h => .adminCurry h
  | .writer h => .writerCurry h
  | .oracle p f => .oracleCurry p f

/-- Modelled from the spec (§4.2): `get_merkle_tree(..).get_root()` — a pure
function of the list of leaf hashes. -/
def merkleRoot (leaves : List B32) : B32 :=
  leaves.foldr B32.merkleNode B32.merkleNil

/-- Modelled from the spec (§4.2): `MerkleTree::generate_proof`.  The proof is
carried opaquely through the delegation layer solution and only checked by
on-chain verification, which is outside the reconstruction logic modelled
here. -/
def generate_proof (_leaves : List B32) (_leaf : B32) : List B32 := []

/-- A memo (`Bytes`): either a 32-byte value or a short raw byte string.
32-byte raw atoms are canonicalised into the `b32` form on decoding. -/
inductive MemoB where
  | b32 (h : B32)
  | raw (bs : List Nat)
  deriving DecidableEq

/-- `CreateCoin { puzzle_hash, amount, memos }`. -/
structure CreateCoinC where
  puzzle_hash : B32
  amount : Nat
  memos : List MemoB
  deriving DecidableEq

/-- An emitted condition, as classified by `from_spend`: a `CreateCoin`, an
"other" condition that parses as a `NewMetadataCondition` (whose DL metadata
updater simply declares the new metadata), or any other condition. -/
inductive Cond where
  | createCoin (c : CreateCoinC)
  | newMetadata (newMetadata : Metadata)
  | other (id : Nat)
  deriving DecidableEq

/-- `FromClvmError` (the variants relevant to this driver). -/
inductive FErr where
  | expectedPair
  | expectedAtom
  | invalidLength
  deriving DecidableEq

/-- `DriverError` (the variants reachable from the modelled code). -/
inductive DriverError where
  | missingChild
  | missingMemo
  | invalidMemo
  | nonStandardLayer
  | fromClvm (e : FErr)
  | evalErr
  deriving DecidableEq

/-! ## Oracle fee byte codec (from `get_recreation_memos`) -/

/-- Minimal big-endian byte decomposition of a natural number (`[]` for 0):
the magnitude part of `BigInt::to_signed_bytes_be`. -/
def natToBE (n : Nat) : List Nat :=
  if h : n = 0 then [] else natToBE (n / 256) ++ [n % 256]
termination_by n
decreasing_by exact Nat.div_lt_self (Nat.pos_of_ne_zero h) (by norm_num)

/-- `BigInt::from(fee).to_signed_bytes_be()` for a non-negative fee: the
minimal big-endian bytes, prefixed with a zero byte when the leading byte has
its high bit set, and `[0]` for zero. -/
def toSignedBytesBE (n : Nat) : List Nat :=
  match natToBE n with
  | [] => [0]
  | b :: bs => if 128 ≤ b then 0 :: b :: bs else b :: bs

/-- The leading-zero-stripping loop of `get_recreation_memos`: strip leading
zero bytes unless the following byte's high bit is set. -/
def stripFeeBytes : List Nat → List Nat
  | [] => []
  | b :: rest =>
    if b = 0 then
      match rest with
      | r1 :: _ => if 128 ≤ r1 then b :: rest else stripFeeBytes rest
      | [] => []
    else b :: rest

/-- The oracle fee encoding performed inline in `get_recreation_memos`. -/
def encodeOracleFee (n : Nat) : List Nat :=
  stripFeeBytes (toSignedBytesBE n)

/-- Modelled from the spec (§4.3): the inverse fee decoding used by
`DelegatedPuzzle::from_memos` (not under `src/`) — big-endian value of the
memo bytes (all encodings of non-negative fees have a clear sign bit). -/
def decodeFeeBytes (bs : List Nat) : Nat :=
  bs.foldl (fun a b => a * 256 + b) 0

/-! ## Programs, solutions and puzzle execution -/

/-- The layered puzzle shapes the driver constructs and probes.  `leafPz id`
is an arbitrary innermost puzzle (owner puzzle, admin/writer/oracle layer,
…), identified by `id`. -/
inductive Prog where
  | launcherPz
  | singletonPz (launcherId : B32) (inner : Prog)
  | statePz (metadata : Metadata) (metadataUpdaterPuzzleHash : B32) (inner : Prog)
  | delegPz (launcherId ownerPuzzleHash merkleRoot : B32)
  | leafPz (id : Nat)
  deriving DecidableEq

/-- `tree_hash` on the modelled program shapes. -/
def Prog.treeHash : Prog → B32
  | .launcherPz => .launcherConst
  | .singletonPz l inner => .currySingleton l inner.treeHash
  | .statePz md upd inner => .curryState md.treeHash upd inner.treeHash
  | .delegPz l own root => .curryDeleg l own root
  | .leafPz n => .leafHash n

/-- The layered solution shapes built by `construct_solution` and probed by
`parse_solution`. -/
inductive Sol where
  | singletonSol (lineage_proof : ProofT) (amount : Nat) (inner : Sol)
  | stateSol (inner : Sol)
  | delegSol (merkle_proof : List B32) (puzzle_reveal : Prog) (puzzle_solution : Sol)
  | rawSol (id : Nat)
  deriving DecidableEq

/-- The external puzzle execution facade for innermost puzzles: the conditions
emitted when leaf program `id` is run against a solution. -/
def PuzzleEnv : Type := Nat → Sol → List Cond

/-- Is the condition a `CreateCoin` with an odd amount?  (The predicate used
by both condition scans in `from_spend`.) -/
def isOddCreateCoin : Cond → Bool
  | .createCoin cc => cc.amount % 2 == 1
  | _ => false

/-- Modelled from the spec (§4.5, external capability `run_puzzle`): execution
of the puzzles `from_spend` re-runs.  A leaf puzzle emits what the
environment says; the delegation layer (its CLVM program is not under
`src/`) runs its delegated inner puzzle and passes its conditions through,
synthesizing its own recreation `CreateCoin` when the inner puzzle emitted no
odd-amount one (spec §4.5 bullet: "the delegation layer itself synthesized
the recreation").  Other shapes are outside the modelled execution domain. -/
def runPuzzleS (env : PuzzleEnv) : Sol → Prog → Except DriverError (List Cond)
  | s, .leafPz n => .ok (env n s)
  | .delegSol _ reveal rsol, .delegPz l own root =>
    match runPuzzleS env rsol reveal with
    | .error e => .error e
    | .ok conds =>
      if conds.any isOddCreateCoin then .ok conds
      else .ok (conds ++ [Cond.createCoin ⟨B32.curryDeleg l own root, 1, [MemoB.b32 l]⟩])
  | _, _ => .error .evalErr

/-- `run_puzzle puzzle solution`, in the source's argument order. -/
def run_puzzle (env : PuzzleEnv) (p : Prog) (s : Sol) : Except DriverError (List Cond) :=
  runPuzzleS env s p

/-! ## The DataStore data model -/

/-- `DataStoreInfo`: launcher id, metadata, owner puzzle hash and the
delegated-puzzle authorization set. -/
structure DataStoreInfo where
  launcher_id : B32
  metadata : Metadata
  owner_puzzle_hash : B32
  delegated_puzzles : List DelegatedPuzzle
  deriving DecidableEq

/-- `DataStore { coin, proof, info }`. -/
structure DataStore where
  coin : Coin
  proof : ProofT
  info : DataStoreInfo
  deriving DecidableEq

/-- `Spend { puzzle, solution }`: an inner spend. -/
structure Spend where
  puzzle : Prog
  solution : Sol
  deriving DecidableEq

/-- A recorded solution: either a layered solution produced by
`construct_solution` or a raw CLVM value (as in launcher spends). -/
inductive CVal where
  | atom (bs : List Nat)
  | b32 (h : B32)
  | pair (a b : CVal)
  deriving DecidableEq

/-- The solution field of a `CoinSpend`. -/
inductive SolRep where
  | layered (s : Sol)
  | clvm (v : CVal)
  deriving DecidableEq

/-- `CoinSpend { coin, puzzle_reveal, solution }`. -/
structure CoinSpend where
  coin : Coin
  puzzle_reveal : Prog
  solution : SolRep
  deriving DecidableEq

/-! ## Forward path: `DataStore::spend` -/

/-- `DataStore::spend`: compose Singleton ∘ State ∘ inner (no authorization
set) or Singleton ∘ State ∘ Delegation with the delegation-layer solution
carrying the merkle proof and the inner spend (authorization set present),
and serialize against the store's coin.  Layer construction
(`into_layers_*`, `construct_puzzle`, `construct_solution`, not under
`src/`) is modelled from the spec §4.1/§4.4; serialization is the
identity. -/
def DataStore.spend (ds : DataStore) (inner_spend : Spend) : CoinSpend :=
  if ds.info.delegated_puzzles.isEmpty then
    ⟨ds.coin,
     .singletonPz ds.info.launcher_id
       (.statePz ds.info.metadata .dlUpdater inner_spend.puzzle),
     .layered (.singletonSol ds.proof ds.coin.amount (.stateSol inner_spend.solution))⟩
  else
    let delegP : Prog := .delegPz ds.info.launcher_id ds.info.owner_puzzle_hash
      (merkleRoot (ds.info.delegated_puzzles.map DelegatedPuzzle.puzzleHash))
    let fullP : Prog := .singletonPz ds.info.launcher_id
      (.statePz ds.info.metadata .dlUpdater delegP)
    ⟨ds.coin, fullP,
     .layered (.singletonSol ds.proof ds.coin.amount (.stateSol
       (.delegSol
         (generate_proof (ds.info.delegated_puzzles.map DelegatedPuzzle.puzzleHash)
           fullP.treeHash)
         inner_spend.puzzle inner_spend.solution)))⟩

/-! ## Memo codec -/

/-- The memo block pushed by `get_recreation_memos` for one delegated puzzle
(hint tags: admin 1, writer 2, oracle 3). -/
def dpMemos : DelegatedPuzzle → List MemoB
  | .admin h => [.raw [1], .b32 h]
  | .writer h => [.raw [2], .b32 h]
  | .oracle ph fee => [.raw [3], .b32 ph, .raw (encodeOracleFee fee)]

/-- The for-loop of `get_recreation_memos` over the delegated puzzles. -/
def dpMemosAll : List DelegatedPuzzle → List MemoB
  | [] => []
  | d :: ds => dpMemos d ++ dpMemosAll ds

/-- `DataStore::get_recreation_memos`. -/
def DataStore.get_recreation_memos (launcher_id : B32) (owner_puzzle_hash : B32)
    (delegated_puzzles : List DelegatedPuzzle) : List MemoB :=
  MemoB.b32 launcher_id :: MemoB.b32 owner_puzzle_hash :: dpMemosAll delegated_puzzles

/-- The `while memos.len() > 1 { DelegatedPuzzle::from_memos(&mut memos)? }`
loop of `build_datastore`, fused with `DelegatedPuzzle::from_memos`
(modelled from the spec §4.3: a role tag, an inner/puzzle hash, and for
oracles a fee). -/
def parseDelegatedPuzzles : List MemoB → Except DriverError (List DelegatedPuzzle)
  | [] => .ok []
  | [_] => .ok []
  | tag :: m1 :: rest =>
    match tag with
    | .raw [1] =>
      match m1 with
      | .b32 h =>
        match parseDelegatedPuzzles rest with
        | .error e => .error e
        | .ok dps => .ok (.admin h :: dps)
      | .raw _ => .error .invalidMemo
    | .raw [2] =>
      match m1 with
      | .b32 h =>
        match parseDelegatedPuzzles rest with
        | .error e => .error e
        | .ok dps => .ok (.writer h :: dps)
      | .raw _ => .error .invalidMemo
    | .raw [3] =>
      match m1 with
      | .b32 ph =>
        match rest with
        | [] => .error .missingMemo
        | feeM :: rest2 =>
          match feeM with
          | .raw feeBs =>
            match parseDelegatedPuzzles rest2 with
            | .error e => .error e
            | .ok dps => .ok (.oracle ph (decodeFeeBytes feeBs) :: dps)
          | .b32 _ => .error .invalidMemo
      | .raw _ => .error .invalidMemo
    | _ => .error .invalidMemo

/-- The tail of `build_datastore` after the launcher-id memo has been drained
and the legacy 2-remaining-memo form ruled out: drain the owner hash (falling
back when the memos are exhausted), then decode the delegated puzzles. -/
def ownerAndDelegated (coin : Coin) (launcher_id : B32) (proof : ProofT)
    (metadata : Metadata) (fallback_owner_ph : B32) (rest : List MemoB) :
    Except DriverError DataStore :=
  match rest with
  | [] => .ok ⟨coin, proof, ⟨launcher_id, metadata, fallback_owner_ph, []⟩⟩
  | o :: rest2 =>
    match o with
    | .b32 h =>
      match parseDelegatedPuzzles rest2 with
      | .error e => .error e
      | .ok dps => .ok ⟨coin, proof, ⟨launcher_id, metadata, h, dps⟩⟩
    | .raw _ => .error .invalidMemo

/-- `DataStore::build_datastore`. -/
def DataStore.build_datastore (coin : Coin) (launcher_id : B32) (proof : ProofT)
    (metadata : Metadata) (fallback_owner_ph : B32) (memos : List MemoB) :
    Except DriverError DataStore :=
  match memos with
  | [] => .ok ⟨coin, proof, ⟨launcher_id, metadata, fallback_owner_ph, []⟩⟩
  | m0 :: rest =>
    if m0 = MemoB.b32 launcher_id then
      match rest with
      | [r0, r1] =>
        if r0 = MemoB.b32 metadata.rootHash then
          match r1 with
          | .b32 h => .ok ⟨coin, proof, ⟨launcher_id, metadata, h, []⟩⟩
          | .raw _ => .error .invalidMemo
        else ownerAndDelegated coin launcher_id proof metadata fallback_owner_ph [r0, r1]
      | _ => ownerAndDelegated coin launcher_id proof metadata fallback_owner_ph rest
    else .error .invalidMemo

/-! ## CLVM decoding for the launcher branch -/

/-- Decode a `Bytes32` from a CLVM value (modelled from the spec: `clvm_traits`
is outside `src/`). -/
def decodeB32V : CVal → Except FErr B32
  | .b32 h => .ok h
  | .atom bs => if bs.length = 32 then .ok (.raw bs) else .error .invalidLength
  | .pair _ _ => .error .expectedAtom

/-- Decode a `u64` amount from a CLVM atom. -/
def decodeNatV : CVal → Except FErr Nat
  | .atom bs => .ok (bs.foldl (fun a b => a * 256 + b) 0)
  | _ => .error .expectedAtom

/-- Decode one memo, canonicalising 32-byte atoms into `MemoB.b32`. -/
def decodeMemoV : CVal → Except FErr MemoB
  | .b32 h => .ok (.b32 h)
  | .atom bs => .ok (if bs.length = 32 then .b32 (.raw bs) else .raw bs)
  | .pair _ _ => .error .expectedAtom

/-- Decode a proper CLVM list of memos. -/
def decodeMemoListV : CVal → Except FErr (List MemoB)
  | .atom [] => .ok []
  | .pair a b =>
    match decodeMemoV a with
    | .error e => .error e
    | .ok m =>
      match decodeMemoListV b with
      | .error e => .error e
      | .ok ms => .ok (m :: ms)
  | _ => .error .expectedPair

/-- Modelled from the spec: `DataStoreMetadata`'s CLVM decoding — metadata is
a pair-shaped (list) value, so decoding it from an atom fails with the
"not a pair" error that identifies the legacy launch format (§4.3). -/
def decodeMetadataV : CVal → Except FErr Metadata
  | .pair rv ev =>
    match decodeB32V rv with
    | .error e => .error e
    | .ok r =>
      match decodeNatV ev with
      | .error e => .error e
      | .ok e => .ok ⟨r, e⟩
  | _ => .error .expectedPair

/-- The decoded `LauncherSolution<DLLauncherKVList<M, Bytes>>` (fields
flattened). -/
structure LauncherSolNew where
  singleton_puzzle_hash : B32
  amount : Nat
  kv_metadata : Metadata
  kv_state_layer_inner_puzzle_hash : B32
  kv_memos : List MemoB
  deriving DecidableEq

/-- The decoded `LauncherSolution<OldDLLauncherKVList<Bytes>>` (fields
flattened). -/
structure LauncherSolOld where
  singleton_puzzle_hash : B32
  amount : Nat
  kv_root_hash : B32
  kv_state_layer_inner_puzzle_hash : B32
  kv_memos : List MemoB
  deriving DecidableEq

/-- Decode the launcher solution in the current key/value-list format:
`(singleton_full_puzzle_hash amount (metadata state_layer_hash . memos))`. -/
def decodeLauncherNewV : CVal → Except FErr LauncherSolNew
  | .pair phv (.pair amv (.pair kvv (.atom []))) =>
    (match decodeB32V phv with
     | .error e => .error e
     | .ok ph =>
       match decodeNatV amv with
       | .error e => .error e
       | .ok am =>
         match kvv with
         | .pair mdv (.pair shv memosv) =>
           (match decodeMetadataV mdv with
            | .error e => .error e
            | .ok md =>
              match decodeB32V shv with
              | .error e => .error e
              | .ok sh =>
                match decodeMemoListV memosv with
                | .error e => .error e
                | .ok ms => .ok ⟨ph, am, md, sh, ms⟩)
         | _ => .error .expectedPair)
  | _ => .error .expectedPair

/-- Decode the launcher solution in the legacy key/value-list format:
`(singleton_full_puzzle_hash amount (root_hash state_layer_hash . memos))`. -/
def decodeLauncherOldV : CVal → Except FErr LauncherSolOld
  | .pair phv (.pair amv (.pair kvv (.atom []))) =>
    (match decodeB32V phv with
     | .error e => .error e
     | .ok ph =>
       match decodeNatV amv with
       | .error e => .error e
       | .ok am =>
         match kvv with
         | .pair rhv (.pair shv memosv) =>
           (match decodeB32V rhv with
            | .error e => .error e
            | .ok rh =>
              match decodeB32V shv with
              | .error e => .error e
              | .ok sh =>
                match decodeMemoListV memosv with
                | .error e => .error e
                | .ok ms => .ok ⟨ph, am, rh, sh, ms⟩)
         | _ => .error .expectedPair)
  | _ => .error .expectedPair

/-- `cs.solution.to_clvm` then `LauncherSolution::<DLLauncherKVList<M, Bytes>>::from_clvm`. -/
def decodeLauncherNew : SolRep → Except FErr LauncherSolNew
  | .clvm v => decodeLauncherNewV v
  | .layered _ => .error .expectedPair

/-- `cs.solution.to_clvm` then `LauncherSolution::<OldDLLauncherKVList<Bytes>>::from_clvm`. -/
def decodeLauncherOld : SolRep → Except FErr LauncherSolOld
  | .clvm v => decodeLauncherOldV v
  | .layered _ => .error .expectedPair

/-! ## Reverse path: `DataStore::from_spend` -/

/-- Modelled from the spec (§4.1, §9): `SingletonLayer::<Puzzle>::parse_puzzle`
— probe the curried singleton shape, `none` on mismatch. -/
def SingletonLayer.parse_puzzle : Prog → Option (B32 × Prog)
  | .singletonPz l inner => some (l, inner)
  | _ => none

/-- Modelled from the spec (§4.1, §9): `NftStateLayer::<M, Puzzle>::parse_puzzle`
— probe the curried state-layer shape, `none` on mismatch. -/
def NftStateLayer.parse_puzzle : Prog → Option (Metadata × B32 × Prog)
  | .statePz md upd inner => some (md, upd, inner)
  | _ => none

/-- Modelled from the spec (§4.1):
`SingletonLayer::<NftStateLayer<M, Puzzle>>::parse_solution`. -/
def parse_singleton_state_solution : SolRep → Except DriverError (ProofT × Nat × Sol)
  | .layered (.singletonSol lp amt (.stateSol inner)) => .ok (lp, amt, inner)
  | _ => .error (.fromClvm .expectedPair)

/-- One step of the condition scan in `from_spend`'s singleton branch:
remember the last odd-amount `CreateCoin` and the last condition parsing as a
`NewMetadataCondition`. -/
def scanStep (acc : Option CreateCoinC × Option Metadata) (c : Cond) :
    Option CreateCoinC × Option Metadata :=
  match c with
  | .createCoin cc => if cc.amount % 2 = 1 then (some cc, acc.2) else acc
  | .newMetadata m => (acc.1, some m)
  | .other _ => acc

/-- The condition-scanning for-loop of `from_spend`'s singleton branch. -/
def scanConds (conds : List Cond) : Option CreateCoinC × Option Metadata :=
  conds.foldl scanStep (none, none)

/-- Lift a built `DataStore` into `from_spend`'s result type. -/
def okSome : Except DriverError DataStore → Except DriverError (Option DataStore)
  | .ok ds => .ok (some ds)
  | .error e => .error e

/-- Lines 403–491 of `from_spend`: the delegation-layer structural probing
path, entered when the successor `CreateCoin` does not carry a recreation
manifest.  Starts from the computed successor coin and lineage proof. -/
def probeResult (env : PuzzleEnv) (new_coin : Coin) (launcher_id : B32)
    (lineage : ProofT) (new_metadata : Metadata) (inner_puzzle : Prog)
    (inner_solution : Sol) (parent_delegated_puzzles : List DelegatedPuzzle) :
    Except DriverError (Option DataStore) :=
  match inner_puzzle with
  | .delegPz dl dOwn dRoot =>
    match inner_solution with
    | .delegSol _ reveal rsol =>
      match run_puzzle env reveal rsol with
      | .error e => .error e
      | .ok conds =>
        match conds.find? isOddCreateCoin with
        | none =>
          .ok (some ⟨new_coin, lineage,
            ⟨launcher_id, new_metadata, dOwn, parent_delegated_puzzles⟩⟩)
        | some c =>
          match c with
          | .createCoin cc2 =>
            if cc2.puzzle_hash = Prog.treeHash (.delegPz dl dOwn dRoot) then
              .ok (some ⟨new_coin, lineage,
                ⟨launcher_id, new_metadata, dOwn, parent_delegated_puzzles⟩⟩)
            else
              .ok (some ⟨new_coin, lineage,
                ⟨launcher_id, new_metadata, cc2.puzzle_hash, []⟩⟩)
          | _ =>
            .ok (some ⟨new_coin, lineage, ⟨launcher_id, new_metadata, dOwn, []⟩⟩)
    | _ => .error (.fromClvm .expectedPair)
  | _ =>
    .ok (some ⟨new_coin, lineage,
      ⟨launcher_id, new_metadata, inner_puzzle.treeHash, []⟩⟩)

/-- `DataStore::from_spend`. -/
def DataStore.from_spend (env : PuzzleEnv) (cs : CoinSpend)
    (parent_delegated_puzzles : List DelegatedPuzzle) :
    Except DriverError (Option DataStore) :=
  if cs.coin.puzzle_hash = B32.launcherConst then
    let launcher_id := cs.coin.coinId
    let proof := ProofT.eve cs.coin.parent_coin_info cs.coin.amount
    match decodeLauncherNew cs.solution with
    | .ok s =>
      okSome (DataStore.build_datastore
        ⟨launcher_id, s.singleton_puzzle_hash, s.amount⟩
        launcher_id proof s.kv_metadata s.kv_state_layer_inner_puzzle_hash
        (MemoB.b32 launcher_id :: s.kv_memos))
    | .error FErr.expectedPair =>
      (match decodeLauncherOld cs.solution with
       | .ok s =>
         okSome (DataStore.build_datastore
           ⟨launcher_id, s.singleton_puzzle_hash, s.amount⟩
           launcher_id proof (Metadata.rootHashOnly s.kv_root_hash)
           s.kv_state_layer_inner_puzzle_hash s.kv_memos)
       | .error e2 => .error (.fromClvm e2))
    | .error e => .error (.fromClvm e)
  else
    match SingletonLayer.parse_puzzle cs.puzzle_reveal with
    | none => .ok none
    | some (launcher_id, singletonInner) =>
      match NftStateLayer.parse_puzzle singletonInner with
      | none => .ok none
      | some (metadata, metadata_updater_puzzle_hash, inner_puzzle) =>
        match parse_singleton_state_solution cs.solution with
        | .error e => .error e
        | .ok (_, _, inner_solution) =>
          match run_puzzle env inner_puzzle inner_solution with
          | .error e => .error e
          | .ok inner_conditions =>
            match scanConds inner_conditions with
            | (none, _) => .error .missingChild
            | (some cc, mdOpt) =>
              let new_metadata := match mdOpt with | some m => m | none => metadata
              let new_puzzle_hash := B32.currySingleton launcher_id
                (B32.curryState new_metadata.treeHash metadata_updater_puzzle_hash
                  cc.puzzle_hash)
              let new_coin : Coin := ⟨cs.coin.coinId, new_puzzle_hash, cc.amount⟩
              let lineage := ProofT.lineage cs.coin.parent_coin_info
                (Prog.treeHash (.statePz metadata metadata_updater_puzzle_hash inner_puzzle))
                cs.coin.amount
              if cc.memos.length > 1 then
                okSome (DataStore.build_datastore new_coin launcher_id lineage
                  new_metadata inner_puzzle.treeHash cc.memos)
              else
                probeResult env new_coin launcher_id lineage new_metadata
                  inner_puzzle inner_solution parent_delegated_puzzles

/-! ## `owner_create_coin_condition` -/

/-- `DataStore::owner_create_coin_condition`. -/
def DataStore.owner_create_coin_condition (launcher_id : B32)
    (new_inner_puzzle_hash : B32) (new_delegated_puzzles : List DelegatedPuzzle)
    (hint_delegated_puzzles : Bool) : Cond :=
  let new_puzzle_hash :=
    if new_delegated_puzzles.isEmpty then
      B32.curryDeleg launcher_id new_inner_puzzle_hash
        (merkleRoot (new_delegated_puzzles.map DelegatedPuzzle.puzzleHash))
    else new_inner_puzzle_hash
  Cond.createCoin ⟨new_puzzle_hash, 1,
    if hint_delegated_puzzles then
      DataStore.get_recreation_memos launcher_id new_inner_puzzle_hash
        new_delegated_puzzles
    else [MemoB.b32 launcher_id]⟩

/-! ## Spec-side condition scanning -/

/-- The value of `f` at the last condition where it is defined ("the last
matching condition wins", the semantics of `from_spend`'s scanning loop). -/
def lastSome (f : Cond → Option α) : List Cond → Option α
  | [] => none
  | c :: rest =>
    match lastSome f rest with
    | some x => some x
    | none => f c

/-- `Option` fallback (first argument wins). -/
def optOr (a b : Option α) : Option α :=
  match a with
  | some x => some x
  | none => b

/-- Extract an odd-amount `CreateCoin` from a condition. -/
def oddCCOf : Cond → Option CreateCoinC
  | .createCoin cc => if cc.amount % 2 = 1 then some cc else none
  | _ => none

/-- Extract a declared new metadata from a condition. -/
def newMdOf : Cond → Option Metadata
  | .newMetadata m => some m
  | _ => none

/-- Modelled from the spec (§4.5): the successor `CreateCoin` signal — the
last odd-amount `CreateCoin` among the emitted conditions. -/
def specLastOddCreateCoin (conds : List Cond) : Option CreateCoinC :=
  lastSome oddCCOf conds

/-- Modelled from the spec (§4.5): the metadata-update instruction — the last
emitted metadata-update condition, if any. -/
def specLastMetadata (conds : List Cond) : Option Metadata :=
  lastSome newMdOf conds

/-- Modelled from the spec (§4.5): the metadata-update rule — apply the
declared new metadata when an update instruction was emitted, else carry the
old metadata over unchanged. -/
def specApplyMetadataUpd (oldMd : Metadata) (declared : Option Metadata) : Metadata :=
  declared.getD oldMd

theorem lastSome_cons (f : Cond → Option α) (c : Cond) (rest : List Cond) :
    lastSome f (c :: rest) = optOr (lastSome f rest) (f c) := by
  simp only [lastSome, optOr]

theorem optOr_assoc (a b c : Option α) : optOr (optOr a b) c = optOr a (optOr b c) := by
  cases a <;> simp [optOr]

theorem optOr_none_right (a : Option α) : optOr a none = a := by
  cases a <;> simp [optOr]

theorem scanStep_fst (a : Option CreateCoinC) (b : Option Metadata) (c : Cond) :
    (scanStep (a, b) c).1 = optOr (oddCCOf c) a := by
  cases c with
  | createCoin cc =>
    by_cases h : cc.amount % 2 = 1 <;> simp [scanStep, oddCCOf, optOr, h]
  | newMetadata m => simp [scanStep, oddCCOf, optOr]
  | other n => simp [scanStep, oddCCOf, optOr]

theorem scanStep_snd (a : Option CreateCoinC) (b : Option Metadata) (c : Cond) :
    (scanStep (a, b) c).2 = optOr (newMdOf c) b := by
  cases c with
  | createCoin cc =>
    by_cases h : cc.amount % 2 = 1 <;> simp [scanStep, newMdOf, optOr, h]
  | newMetadata m => simp [scanStep, newMdOf, optOr]
  | other n => simp [scanStep, newMdOf, optOr]

theorem foldl_scanStep (conds : List Cond) :
    ∀ a b, conds.foldl scanStep (a, b)
      = (optOr (lastSome oddCCOf conds) a, optOr (lastSome newMdOf conds) b) := by
  induction conds with
  | nil => intro a b; simp [lastSome, optOr]
  | cons c rest ih =>
    intro a b
    have hstep : scanStep (a, b) c = (optOr (oddCCOf c) a, optOr (newMdOf c) b) := by
      rw [Prod.ext_iff]
      exact ⟨scanStep_fst a b c, scanStep_snd a b c⟩
    rw [List.foldl_cons, hstep, ih, lastSome_cons, lastSome_cons, optOr_assoc, optOr_assoc]

/-- The source's scanning loop computes exactly the spec's "last odd
`CreateCoin`" and "last metadata-update" values. -/
theorem scanConds_eq (conds : List Cond) :
    scanConds conds = (specLastOddCreateCoin conds, specLastMetadata conds) := by
  rw [scanConds, foldl_scanStep, optOr_none_right, optOr_none_right]
  rfl

theorem lastSome_eq_none (f : Cond → Option α) (l : List Cond)
    (h : ∀ c ∈ l, f c = none) : lastSome f l = none := by
  induction l with
  | nil => rfl
  | cons c rest ih =>
    rw [lastSome_cons, ih fun c hc => h c (List.mem_cons_of_mem _ hc)]
    simp [optOr, h c (List.mem_cons_self _ _)]

/-! ## Fee codec lemmas -/

theorem natToBE_zero : natToBE 0 = [] := by simp [natToBE]

theorem natToBE_cons (n : Nat) (h : n ≠ 0) :
    natToBE n = natToBE (n / 256) ++ [n % 256] := by
  rw [natToBE]
  simp [h]

theorem decodeFeeBytes_append (xs : List Nat) (b : Nat) :
    decodeFeeBytes (xs ++ [b]) = decodeFeeBytes xs * 256 + b := by
  simp [decodeFeeBytes, List.foldl_append]

theorem decodeFeeBytes_cons_zero (xs : List Nat) :
    decodeFeeBytes (0 :: xs) = decodeFeeBytes xs := by
  simp [decodeFeeBytes]

theorem decodeFeeBytes_natToBE (n : Nat) : decodeFeeBytes (natToBE n) = n := by
  induction n using Nat.strong_induction_on with
  | _ n ih =>
    by_cases h : n = 0
    · subst h; simp [natToBE_zero, decodeFeeBytes]
    · rw [natToBE_cons n h, decodeFeeBytes_append,
        ih (n / 256) (Nat.div_lt_self (Nat.pos_of_ne_zero h) (by norm_num)),
        Nat.mul_comm]
      exact Nat.div_add_mod n 256

theorem natToBE_head_ne_zero (n : Nat) (h : n ≠ 0) :
    ∃ b bs, natToBE n = b :: bs ∧ b ≠ 0 := by
  induction n using Nat.strong_induction_on with
  | _ n ih =>
    by_cases hlt : n < 256
    · refine ⟨n % 256, [], ?_, ?_⟩
      · rw [natToBE_cons n h, Nat.div_eq_of_lt hlt, natToBE_zero]
        rfl
      · rwa [Nat.mod_eq_of_lt hlt]
    · have hd : n / 256 ≠ 0 := by
        intro hz
        have hlt2 : n < 256 := by
          rcases Nat.div_eq_zero_iff (by norm_num : 0 < 256) |>.mp hz with h2
          exact h2
        exact hlt hlt2
      obtain ⟨b, bs, hbs, hb⟩ :=
        ih (n / 256) (Nat.div_lt_self (Nat.pos_of_ne_zero h) (by norm_num)) hd
      exact ⟨b, bs ++ [n % 256], by rw [natToBE_cons n h, hbs]; simp, hb⟩

theorem encodeOracleFee_cases (n : Nat) :
    (n = 0 ∧ encodeOracleFee n = [])
  ∨ (∃ b bs, natToBE n = b :: bs ∧ b ≠ 0 ∧ b < 128 ∧ encodeOracleFee n = b :: bs)
  ∨ (∃ b bs, natToBE n = b :: bs ∧ 128 ≤ b ∧ encodeOracleFee n = 0 :: b :: bs) := by
  by_cases h : n = 0
  · subst h
    exact Or.inl ⟨rfl, by simp [encodeOracleFee, toSignedBytesBE, natToBE_zero, stripFeeBytes]⟩
  · obtain ⟨b, bs, hbs, hb⟩ := natToBE_head_ne_zero n h
    by_cases hhi : 128 ≤ b
    · refine Or.inr (Or.inr ⟨b, bs, hbs, hhi, ?_⟩)
      simp [encodeOracleFee, toSignedBytesBE, hbs, hhi, stripFeeBytes]
    · refine Or.inr (Or.inl ⟨b, bs, hbs, hb, by omega, ?_⟩)
      simp [encodeOracleFee, toSignedBytesBE, hbs, hhi, stripFeeBytes, hb]

theorem decode_encode_fee (n : Nat) : decodeFeeBytes (encodeOracleFee n) = n := by
  rcases encodeOracleFee_cases n with ⟨hz, he⟩ | ⟨b, bs, hbs, _, _, he⟩ | ⟨b, bs, hbs, _, he⟩
  · rw [he, hz]; rfl
  · rw [he, ← hbs, decodeFeeBytes_natToBE]
  · rw [he, decodeFeeBytes_cons_zero, ← hbs, decodeFeeBytes_natToBE]

/-! ## Memo codec round-trip lemmas -/

theorem parseDelegatedPuzzles_dpMemosAll (dps : List DelegatedPuzzle) :
    parseDelegatedPuzzles (dpMemosAll dps) = .ok dps := by
  induction dps with
  | nil => rfl
  | cons d ds ih =>
    cases d with
    | admin h => simp [dpMemosAll, dpMemos, parseDelegatedPuzzles, ih]
    | writer h => simp [dpMemosAll, dpMemos, parseDelegatedPuzzles, ih]
    | oracle ph fee =>
      simp [dpMemosAll, dpMemos, parseDelegatedPuzzles, ih, decode_encode_fee]

/-- C4: Memo codec round trip: decoding (via `build_datastore`) the encoding
(via `get_recreation_memos`) of any recreation manifest — any owner puzzle
hash and any list of Admin/Writer/Oracle delegated puzzles, including the
zero-authorization-set (legacy 2-memo) form — recovers exactly the original
owner puzzle hash and delegated-puzzle list. -/
theorem c4_memo_codec_round_trip (coin : Coin) (launcher_id : B32) (proof : ProofT)
    (metadata : Metadata) (fallback : B32) (owner : B32) (dps : List DelegatedPuzzle) :
    DataStore.build_datastore coin launcher_id proof metadata fallback
      (DataStore.get_recreation_memos launcher_id owner dps)
      = .ok ⟨coin, proof, ⟨launcher_id, metadata, owner, dps⟩⟩ := by
  cases dps with
  | nil =>
    simp [DataStore.get_recreation_memos, DataStore.build_datastore, dpMemosAll,
      ownerAndDelegated, parseDelegatedPuzzles]
  | cons d ds =>
    have hp : parseDelegatedPuzzles (dpMemos d ++ dpMemosAll ds) = .ok (d :: ds) :=
      parseDelegatedPuzzles_dpMemosAll (d :: ds)
    cases d <;>
      simp [DataStore.get_recreation_memos, DataStore.build_datastore, dpMemosAll,
        dpMemos, ownerAndDelegated, hp] <;>
      simp [dpMemosAll, dpMemos] at hp <;> simp [hp]

/-- C7: Zero-hint launch reconstruction: with an empty memo list, or with the
memos exhausted right after the launcher id, `build_datastore` yields the
caller-supplied fallback owner puzzle hash and an empty delegated-puzzle
list. -/
theorem c7_zero_hint_launch (coin : Coin) (launcher_id : B32) (proof : ProofT)
    (metadata : Metadata) (fallback : B32) :
    DataStore.build_datastore coin launcher_id proof metadata fallback []
      = .ok ⟨coin, proof, ⟨launcher_id, metadata, fallback, []⟩⟩
  ∧ DataStore.build_datastore coin launcher_id proof metadata fallback
      [MemoB.b32 launcher_id]
      = .ok ⟨coin, proof, ⟨launcher_id, metadata, fallback, []⟩⟩ := by
  constructor
  · rfl
  · simp [DataStore.build_datastore, ownerAndDelegated]

/-- C8: Oracle fee encoding edge cases: fee 0 encodes to the empty byte
string; fee 128 encodes to `[0, 128]`, keeping the leading zero byte because
the following byte's high bit is set; a leading zero byte appears only when
the next byte's high bit is set; and decoding is the exact inverse of
encoding. -/
theorem c8_oracle_fee_codec :
    encodeOracleFee 0 = []
  ∧ encodeOracleFee 128 = [0, 128]
  ∧ (∀ n, decodeFeeBytes (encodeOracleFee n) = n)
  ∧ (∀ n rest, encodeOracleFee n = 0 :: rest → ∃ c r2, rest = c :: r2 ∧ 128 ≤ c) := by
  refine ⟨?_, ?_, decode_encode_fee, ?_⟩
  · simp [encodeOracleFee, toSignedBytesBE, stripFeeBytes, natToBE]
  · simp [encodeOracleFee, toSignedBytesBE, stripFeeBytes, natToBE]
  · intro n rest he
    rcases encodeOracleFee_cases n with ⟨_, he2⟩ | ⟨b, bs, _, hb, _, he2⟩ | ⟨b, bs, _, hhi, he2⟩
    · rw [he2] at he; exact absurd he (by simp)
    · rw [he2] at he
      injection he with h4 _
      exact absurd h4 hb
    · rw [he2] at he
      injection he with _ h5
      exact ⟨b, bs, h5.symm, hhi⟩

/-- C8 witness: the round trip and the leading-zero rule evaluated at
concrete fees. -/
theorem c8_oracle_fee_codec_witness :
    decodeFeeBytes (encodeOracleFee 1000) = 1000
  ∧ ∃ c r2, [(128 : Nat)] = c :: r2 ∧ 128 ≤ c :=
  ⟨c8_oracle_fee_codec.2.2.1 1000,
   c8_oracle_fee_codec.2.2.2 128 [128] c8_oracle_fee_codec.2.1⟩

/-! ## C3, C9, C10 -/

theorem lastOdd_none (conds : List Cond)
    (h : ∀ c ∈ conds, isOddCreateCoin c = false) :
    specLastOddCreateCoin conds = none := by
  apply lastSome_eq_none
  intro c hc
  have hc2 := h c hc
  cases c with
  | createCoin cc =>
    simp only [isOddCreateCoin] at hc2
    have h3 : cc.amount % 2 ≠ 1 := by
      intro h4
      rw [h4] at hc2
      simp at hc2
    simp [oddCCOf, h3]
  | newMetadata m => rfl
  | other n => rfl

/-- C3: For every non-launcher spend that parses as Singleton ∘ State, if
re-executing the state-layer inner puzzle against its solution emits no
`CreateCoin` condition with an odd amount, `from_spend` returns the error
`MissingChild`. -/
theorem c3_missing_child (env : PuzzleEnv) (c : Coin) (l : B32) (md : Metadata)
    (u : B32) (ip : Prog) (pf : ProofT) (amt : Nat) (isol : Sol)
    (pdps : List DelegatedPuzzle) (conds : List Cond)
    (hph : c.puzzle_hash ≠ B32.launcherConst)
    (hrun : run_puzzle env ip isol = .ok conds)
    (hodd : ∀ cnd ∈ conds, isOddCreateCoin cnd = false) :
    DataStore.from_spend env ⟨c, .singletonPz l (.statePz md u ip),
      .layered (.singletonSol pf amt (.stateSol isol))⟩ pdps
      = .error .missingChild := by
  have h1 : scanConds conds = (none, specLastMetadata conds) := by
    rw [scanConds_eq, lastOdd_none conds hodd]
  simp [DataStore.from_spend, hph, SingletonLayer.parse_puzzle,
    NftStateLayer.parse_puzzle, parse_singleton_state_solution, hrun, h1]

/-- C3 witness: a spend whose inner puzzle emits only a non-CreateCoin
condition reconstructs to `MissingChild`. -/
theorem c3_missing_child_witness :
    DataStore.from_spend (fun _ _ => [Cond.other 0])
      ⟨⟨.raw [0], .raw [9], 1⟩,
       .singletonPz (.raw [1]) (.statePz ⟨.raw [4], 0⟩ .dlUpdater (.leafPz 0)),
       .layered (.singletonSol (.eve (.raw [0]) 1) 1 (.stateSol (.rawSol 0)))⟩ []
      = .error .missingChild :=
  c3_missing_child (fun _ _ => [Cond.other 0]) ⟨.raw [0], .raw [9], 1⟩ (.raw [1])
    ⟨.raw [4], 0⟩ .dlUpdater (.leafPz 0) (.eve (.raw [0]) 1) 1 (.rawSol 0) []
    [Cond.other 0] (by decide) rfl (by decide)

/-- C9: Structural mismatch yields `Ok(None)`: for a non-launcher coin spend,
failure to parse the puzzle reveal as a Singleton layer, or its inner puzzle
as a State layer, makes `from_spend` return `Ok(None)` rather than an
error. -/
theorem c9_structural_mismatch (env : PuzzleEnv) (cs : CoinSpend)
    (pdps : List DelegatedPuzzle)
    (hph : cs.coin.puzzle_hash ≠ B32.launcherConst) :
    (SingletonLayer.parse_puzzle cs.puzzle_reveal = none →
      DataStore.from_spend env cs pdps = .ok none)
  ∧ (∀ l inner, cs.puzzle_reveal = .singletonPz l inner →
      NftStateLayer.parse_puzzle inner = none →
      DataStore.from_spend env cs pdps = .ok none) := by
  constructor
  · intro h1
    simp [DataStore.from_spend, hph, h1]
  · intro l inner h1 h2
    simp [DataStore.from_spend, hph, h1, SingletonLayer.parse_puzzle, h2]

/-- C9 witness: a non-singleton puzzle reveal, and a singleton whose inner
puzzle is not a state layer, both reconstruct to `Ok(None)`. -/
theorem c9_structural_mismatch_witness :
    DataStore.from_spend (fun _ _ => [])
      ⟨⟨.raw [0], .raw [9], 1⟩, .leafPz 0, .layered (.rawSol 0)⟩ [] = .ok none
  ∧ DataStore.from_spend (fun _ _ => [])
      ⟨⟨.raw [0], .raw [9], 1⟩, .singletonPz (.raw [1]) (.leafPz 0),
        .layered (.rawSol 0)⟩ [] = .ok none :=
  ⟨(c9_structural_mismatch (fun _ _ => [])
      ⟨⟨.raw [0], .raw [9], 1⟩, .leafPz 0, .layered (.rawSol 0)⟩ [] (by decide)).1 rfl,
   (c9_structural_mismatch (fun _ _ => [])
      ⟨⟨.raw [0], .raw [9], 1⟩, .singletonPz (.raw [1]) (.leafPz 0),
        .layered (.rawSol 0)⟩ [] (by decide)).2 (.raw [1]) (.leafPz 0) rfl rfl⟩

/-- C10: `owner_create_coin_condition` selects the created coin's puzzle hash
by the emptiness of `new_delegated_puzzles` — the delegation-layer curried
tree hash over (launcher id, new inner puzzle hash, merkle root of the empty
set) when the list is empty, the bare new inner puzzle hash when it is
non-empty — and the created coin's amount is always 1. -/
theorem c10_owner_create_coin_selection (launcher_id new_inner_puzzle_hash : B32)
    (new_delegated_puzzles : List DelegatedPuzzle) (hint : Bool) :
    ∃ ms, DataStore.owner_create_coin_condition launcher_id new_inner_puzzle_hash
        new_delegated_puzzles hint
      = Cond.createCoin ⟨(if new_delegated_puzzles = [] then
          B32.curryDeleg launcher_id new_inner_puzzle_hash (merkleRoot [])
        else new_inner_puzzle_hash), 1, ms⟩ := by
  cases new_delegated_puzzles with
  | nil =>
    refine ⟨if hint then DataStore.get_recreation_memos launcher_id
      new_inner_puzzle_hash [] else [MemoB.b32 launcher_id], ?_⟩
    simp [DataStore.owner_create_coin_condition]
  | cons d ds =>
    refine ⟨if hint then DataStore.get_recreation_memos launcher_id
      new_inner_puzzle_hash (d :: ds) else [MemoB.b32 launcher_id], ?_⟩
    simp [DataStore.owner_create_coin_condition]

/-! ## C2 -/

/-- The quantity the claim counts: memos other than the launcher-id memo. -/
def nonLauncherMemoCount (launcher_id : B32) (memos : List MemoB) : Nat :=
  (memos.filter fun m => m != MemoB.b32 launcher_id).length

/-- C2 counterexample: a successor `CreateCoin` carrying the memo list
`[launcher_id, X]` has exactly one non-launcher-id memo, so the claim
predicts the structural probing path (which would leave the owner hash equal
to the spent inner puzzle's hash `leafHash 0`); but `from_spend` takes the
full-recreation-manifest path and returns owner hash `X` rebuilt from the
memos. -/
theorem c2_counterexample :
    nonLauncherMemoCount (B32.raw [1]) [MemoB.b32 (B32.raw [1]), MemoB.b32 (B32.raw [7])] = 1
  ∧ DataStore.from_spend
      (fun _ _ => [Cond.createCoin ⟨B32.raw [7], 1,
        [MemoB.b32 (B32.raw [1]), MemoB.b32 (B32.raw [7])]⟩])
      ⟨⟨.raw [0], .raw [9], 1⟩,
       .singletonPz (.raw [1]) (.statePz ⟨.raw [4], 0⟩ .dlUpdater (.leafPz 0)),
       .layered (.singletonSol (.eve (.raw [0]) 1) 1 (.stateSol (.rawSol 0)))⟩ []
      = .ok (some ⟨⟨Coin.coinId ⟨.raw [0], .raw [9], 1⟩,
          B32.currySingleton (.raw [1])
            (B32.curryState (Metadata.treeHash ⟨.raw [4], 0⟩) .dlUpdater (.raw [7])), 1⟩,
          ProofT.lineage (.raw [0])
            (B32.curryState (Metadata.treeHash ⟨.raw [4], 0⟩) .dlUpdater (B32.leafHash 0)) 1,
          ⟨.raw [1], ⟨.raw [4], 0⟩, .raw [7], []⟩⟩)
  ∧ probeResult
      (fun _ _ => [Cond.createCoin ⟨B32.raw [7], 1,
        [MemoB.b32 (B32.raw [1]), MemoB.b32 (B32.raw [7])]⟩])
      ⟨Coin.coinId ⟨.raw [0], .raw [9], 1⟩,
       B32.currySingleton (.raw [1])
         (B32.curryState (Metadata.treeHash ⟨.raw [4], 0⟩) .dlUpdater (.raw [7])), 1⟩
      (.raw [1])
      (ProofT.lineage (.raw [0])
        (B32.curryState (Metadata.treeHash ⟨.raw [4], 0⟩) .dlUpdater (B32.leafHash 0)) 1)
      ⟨.raw [4], 0⟩ (.leafPz 0) (.rawSol 0) []
      = .ok (some ⟨⟨Coin.coinId ⟨.raw [0], .raw [9], 1⟩,
          B32.currySingleton (.raw [1])
            (B32.curryState (Metadata.treeHash ⟨.raw [4], 0⟩) .dlUpdater (.raw [7])), 1⟩,
          ProofT.lineage (.raw [0])
            (B32.curryState (Metadata.treeHash ⟨.raw [4], 0⟩) .dlUpdater (B32.leafHash 0)) 1,
          ⟨.raw [1], ⟨.raw [4], 0⟩, B32.leafHash 0, []⟩⟩)
  ∧ B32.raw [7] ≠ B32.leafHash 0 :=
  ⟨rfl, rfl, rfl, by decide⟩

/-- C2 (amended): in `from_spend`'s singleton branch the
full-recreation-manifest path is taken exactly when the successor
`CreateCoin` carries more than one memo in total (by convention the first
memo is the launcher id, so: at least one memo beyond it); otherwise the
delegation-layer structural probing path is taken. -/
theorem c2_manifest_condition (env : PuzzleEnv) (c : Coin) (l : B32)
    (md : Metadata) (u : B32) (ip : Prog) (pf : ProofT) (amt : Nat) (isol : Sol)
    (pdps : List DelegatedPuzzle) (conds : List Cond) (cc : CreateCoinC)
    (mdOpt : Option Metadata)
    (hph : c.puzzle_hash ≠ B32.launcherConst)
    (hrun : run_puzzle env ip isol = .ok conds)
    (hscan : scanConds conds = (some cc, mdOpt)) :
    DataStore.from_spend env ⟨c, .singletonPz l (.statePz md u ip),
      .layered (.singletonSol pf amt (.stateSol isol))⟩ pdps
    = if cc.memos.length > 1 then
        okSome (DataStore.build_datastore
          ⟨c.coinId, B32.currySingleton l
            (B32.curryState (specApplyMetadataUpd md mdOpt).treeHash u cc.puzzle_hash),
           cc.amount⟩
          l (ProofT.lineage c.parent_coin_info
              (B32.curryState md.treeHash u ip.treeHash) c.amount)
          (specApplyMetadataUpd md mdOpt) ip.treeHash cc.memos)
      else
        probeResult env
          ⟨c.coinId, B32.currySingleton l
            (B32.curryState (specApplyMetadataUpd md mdOpt).treeHash u cc.puzzle_hash),
           cc.amount⟩
          l (ProofT.lineage c.parent_coin_info
              (B32.curryState md.treeHash u ip.treeHash) c.amount)
          (specApplyMetadataUpd md mdOpt) ip isol pdps := by
  cases mdOpt with
  | none =>
    simp [DataStore.from_spend, hph, SingletonLayer.parse_puzzle,
      NftStateLayer.parse_puzzle, parse_singleton_state_solution, hrun, hscan,
      specApplyMetadataUpd, Prog.treeHash]
  | some m =>
    simp [DataStore.from_spend, hph, SingletonLayer.parse_puzzle,
      NftStateLayer.parse_puzzle, parse_singleton_state_solution, hrun, hscan,
      specApplyMetadataUpd, Prog.treeHash]

/-- C2 witness: the amended condition evaluated on a concrete spend whose
successor `CreateCoin` carries two memos. -/
theorem c2_manifest_condition_witness :
    DataStore.from_spend
      (fun _ _ => [Cond.createCoin ⟨B32.raw [8], 1,
        [MemoB.b32 (B32.raw [2]), MemoB.b32 (B32.raw [8])]⟩])
      ⟨⟨.raw [0], .raw [9], 1⟩,
       .singletonPz (.raw [2]) (.statePz ⟨.raw [4], 0⟩ .dlUpdater (.leafPz 1)),
       .layered (.singletonSol (.eve (.raw [0]) 1) 1 (.stateSol (.rawSol 1)))⟩ []
    = if ([MemoB.b32 (B32.raw [2]), MemoB.b32 (B32.raw [8])] : List MemoB).length > 1 then
        okSome (DataStore.build_datastore
          ⟨Coin.coinId ⟨.raw [0], .raw [9], 1⟩, B32.currySingleton (.raw [2])
            (B32.curryState (specApplyMetadataUpd ⟨.raw [4], 0⟩ none).treeHash .dlUpdater
              (B32.raw [8])), 1⟩
          (.raw [2]) (ProofT.lineage (.raw [0])
            (B32.curryState (Metadata.treeHash ⟨.raw [4], 0⟩) .dlUpdater
              (Prog.treeHash (.leafPz 1))) 1)
          (specApplyMetadataUpd ⟨.raw [4], 0⟩ none) (Prog.treeHash (.leafPz 1))
          [MemoB.b32 (B32.raw [2]), MemoB.b32 (B32.raw [8])])
      else
        probeResult
          (fun _ _ => [Cond.createCoin ⟨B32.raw [8], 1,
            [MemoB.b32 (B32.raw [2]), MemoB.b32 (B32.raw [8])]⟩])
          ⟨Coin.coinId ⟨.raw [0], .raw [9], 1⟩, B32.currySingleton (.raw [2])
            (B32.curryState (specApplyMetadataUpd ⟨.raw [4], 0⟩ none).treeHash .dlUpdater
              (B32.raw [8])), 1⟩
          (.raw [2]) (ProofT.lineage (.raw [0])
            (B32.curryState (Metadata.treeHash ⟨.raw [4], 0⟩) .dlUpdater
              (Prog.treeHash (.leafPz 1))) 1)
          (specApplyMetadataUpd ⟨.raw [4], 0⟩ none) (.leafPz 1) (.rawSol 1) [] :=
  c2_manifest_condition
    (fun _ _ => [Cond.createCoin ⟨B32.raw [8], 1,
      [MemoB.b32 (B32.raw [2]), MemoB.b32 (B32.raw [8])]⟩])
    ⟨.raw [0], .raw [9], 1⟩ (.raw [2]) ⟨.raw [4], 0⟩ .dlUpdater (.leafPz 1)
    (.eve (.raw [0]) 1) 1 (.rawSol 1) []
    [Cond.createCoin ⟨B32.raw [8], 1,
      [MemoB.b32 (B32.raw [2]), MemoB.b32 (B32.raw [8])]⟩]
    ⟨B32.raw [8], 1, [MemoB.b32 (B32.raw [2]), MemoB.b32 (B32.raw [8])]⟩ none
    (by decide) rfl rfl

/-! ## C6 -/

/-- C6: Launcher legacy-format fallback: in `from_spend`'s launcher branch the
legacy key/value-list format is attempted exactly when decoding the current
format fails with the "not a pair" (`ExpectedPair`) error — any other
decoding error is returned as-is — and legacy metadata is reconstructed via
the `root_hash_only` constructor. -/
theorem c6_launcher_legacy_fallback (env : PuzzleEnv) (c : Coin) (reveal : Prog)
    (v : CVal) (pdps : List DelegatedPuzzle)
    (hph : c.puzzle_hash = B32.launcherConst) :
    (∀ s, decodeLauncherNewV v = .ok s →
      DataStore.from_spend env ⟨c, reveal, .clvm v⟩ pdps
        = okSome (DataStore.build_datastore
            ⟨c.coinId, s.singleton_puzzle_hash, s.amount⟩
            c.coinId (ProofT.eve c.parent_coin_info c.amount) s.kv_metadata
            s.kv_state_layer_inner_puzzle_hash (MemoB.b32 c.coinId :: s.kv_memos)))
  ∧ (decodeLauncherNewV v = .error .expectedPair →
      (∀ s, decodeLauncherOldV v = .ok s →
        DataStore.from_spend env ⟨c, reveal, .clvm v⟩ pdps
          = okSome (DataStore.build_datastore
              ⟨c.coinId, s.singleton_puzzle_hash, s.amount⟩
              c.coinId (ProofT.eve c.parent_coin_info c.amount)
              (Metadata.rootHashOnly s.kv_root_hash)
              s.kv_state_layer_inner_puzzle_hash s.kv_memos))
    ∧ (∀ e2, decodeLauncherOldV v = .error e2 →
        DataStore.from_spend env ⟨c, reveal, .clvm v⟩ pdps
          = .error (.fromClvm e2)))
  ∧ (∀ e, decodeLauncherNewV v = .error e → e ≠ .expectedPair →
      DataStore.from_spend env ⟨c, reveal, .clvm v⟩ pdps
        = .error (.fromClvm e)) := by
  refine ⟨?_, ?_, ?_⟩
  · intro s h1
    simp [DataStore.from_spend, hph, decodeLauncherNew, h1]
  · intro h1
    constructor
    · intro s h2
      simp [DataStore.from_spend, hph, decodeLauncherNew, decodeLauncherOld, h1, h2]
    · intro e2 h2
      simp [DataStore.from_spend, hph, decodeLauncherNew, decodeLauncherOld, h1, h2]
  · intro e h1 h2
    cases e with
    | expectedPair => exact absurd rfl h2
    | expectedAtom => simp [DataStore.from_spend, hph, decodeLauncherNew, h1]
    | invalidLength => simp [DataStore.from_spend, hph, decodeLauncherNew, h1]

/-- C6 witness: the three launcher decoding outcomes at concrete solutions —
a well-formed current-format solution, a legacy-format solution (whose
current-format decode fails with `ExpectedPair` and whose metadata is rebuilt
with `root_hash_only`), and a solution failing with a different error. -/
theorem c6_launcher_legacy_fallback_witness :
    DataStore.from_spend (fun _ _ => [])
      ⟨⟨.raw [0], .launcherConst, 1⟩, .launcherPz,
       .clvm (.pair (.b32 (.raw [2]))
         (.pair (.atom [1])
           (.pair (.pair (.pair (.b32 (.raw [4])) (.atom []))
                     (.pair (.b32 (.raw [5])) (.atom [])))
             (.atom []))))⟩ []
      = okSome (DataStore.build_datastore
          ⟨Coin.coinId ⟨.raw [0], .launcherConst, 1⟩, .raw [2], 1⟩
          (Coin.coinId ⟨.raw [0], .launcherConst, 1⟩)
          (ProofT.eve (.raw [0]) 1) ⟨.raw [4], 0⟩ (.raw [5])
          [MemoB.b32 (Coin.coinId ⟨.raw [0], .launcherConst, 1⟩)])
  ∧ DataStore.from_spend (fun _ _ => [])
      ⟨⟨.raw [0], .launcherConst, 1⟩, .launcherPz,
       .clvm (.pair (.b32 (.raw [2]))
         (.pair (.atom [1])
           (.pair (.pair (.b32 (.raw [4]))
                     (.pair (.b32 (.raw [5])) (.atom [])))
             (.atom []))))⟩ []
      = okSome (DataStore.build_datastore
          ⟨Coin.coinId ⟨.raw [0], .launcherConst, 1⟩, .raw [2], 1⟩
          (Coin.coinId ⟨.raw [0], .launcherConst, 1⟩)
          (ProofT.eve (.raw [0]) 1) (Metadata.rootHashOnly (.raw [4])) (.raw [5]) [])
  ∧ DataStore.from_spend (fun _ _ => [])
      ⟨⟨.raw [0], .launcherConst, 1⟩, .launcherPz,
       .clvm (.pair (.atom [1, 2])
         (.pair (.atom [1])
           (.pair (.pair (.pair (.b32 (.raw [4])) (.atom []))
                     (.pair (.b32 (.raw [5])) (.atom [])))
             (.atom []))))⟩ []
      = .error (.fromClvm .invalidLength) :=
  ⟨(c6_launcher_legacy_fallback (fun _ _ => []) ⟨.raw [0], .launcherConst, 1⟩
      .launcherPz (.pair (.b32 (.raw [2]))
        (.pair (.atom [1])
          (.pair (.pair (.pair (.b32 (.raw [4])) (.atom []))
                    (.pair (.b32 (.raw [5])) (.atom [])))
            (.atom [])))) [] rfl).1 ⟨.raw [2], 1, ⟨.raw [4], 0⟩, .raw [5], []⟩ rfl,
   ((c6_launcher_legacy_fallback (fun _ _ => []) ⟨.raw [0], .launcherConst, 1⟩
      .launcherPz (.pair (.b32 (.raw [2]))
        (.pair (.atom [1])
          (.pair (.pair (.b32 (.raw [4]))
                    (.pair (.b32 (.raw [5])) (.atom [])))
            (.atom [])))) [] rfl).2.1 rfl).1 ⟨.raw [2], 1, .raw [4], .raw [5], []⟩ rfl,
   (c6_launcher_legacy_fallback (fun _ _ => []) ⟨.raw [0], .launcherConst, 1⟩
      .launcherPz (.pair (.atom [1, 2])
        (.pair (.atom [1])
          (.pair (.pair (.pair (.b32 (.raw [4])) (.atom []))
                    (.pair (.b32 (.raw [5])) (.atom [])))
            (.atom [])))) [] rfl).2.2 .invalidLength rfl (by decide)⟩

/-! ## C5 -/

/-- C5: Delegation exit: for an object carrying a delegation layer, a spend
whose delegated inner puzzle emits an odd `CreateCoin` with puzzle hash `X`,
amount 1 and no memos reconstructs — when `X` differs from the delegation
layer's own tree hash — to owner puzzle hash `X` with an empty
delegated-puzzle list; when `X` equals the delegation layer's own tree hash,
the caller-supplied delegated-puzzle set and the layer's curried owner hash
are kept unchanged. -/
theorem c5_delegation_exit (env : PuzzleEnv) (c : Coin) (l own root : B32)
    (md : Metadata) (u : B32) (pf : ProofT) (amt : Nat) (mp : List B32)
    (pid : Nat) (isol : Sol) (outI : List Cond) (X : B32)
    (mdOpt : Option Metadata) (pdps : List DelegatedPuzzle)
    (hph : c.puzzle_hash ≠ B32.launcherConst)
    (henv : env pid isol = outI)
    (hscan : scanConds outI = (some ⟨X, 1, []⟩, mdOpt))
    (hfind : outI.find? isOddCreateCoin = some (.createCoin ⟨X, 1, []⟩)) :
    (X ≠ B32.curryDeleg l own root →
      DataStore.from_spend env
        ⟨c, .singletonPz l (.statePz md u (.delegPz l own root)),
         .layered (.singletonSol pf amt (.stateSol
           (.delegSol mp (.leafPz pid) isol)))⟩ pdps
      = .ok (some ⟨⟨c.coinId, B32.currySingleton l
            (B32.curryState (specApplyMetadataUpd md mdOpt).treeHash u X), 1⟩,
          ProofT.lineage c.parent_coin_info
            (B32.curryState md.treeHash u (B32.curryDeleg l own root)) c.amount,
          ⟨l, specApplyMetadataUpd md mdOpt, X, []⟩⟩))
  ∧ (X = B32.curryDeleg l own root →
      DataStore.from_spend env
        ⟨c, .singletonPz l (.statePz md u (.delegPz l own root)),
         .layered (.singletonSol pf amt (.stateSol
           (.delegSol mp (.leafPz pid) isol)))⟩ pdps
      = .ok (some ⟨⟨c.coinId, B32.currySingleton l
            (B32.curryState (specApplyMetadataUpd md mdOpt).treeHash u X), 1⟩,
          ProofT.lineage c.parent_coin_info
            (B32.curryState md.treeHash u (B32.curryDeleg l own root)) c.amount,
          ⟨l, specApplyMetadataUpd md mdOpt, own, pdps⟩⟩)) := by
  have hmem : (Cond.createCoin ⟨X, 1, []⟩) ∈ outI := List.mem_of_find?_eq_some hfind
  have hpred : isOddCreateCoin (Cond.createCoin ⟨X, 1, []⟩) = true := by
    simp [isOddCreateCoin]
  have hany : outI.any isOddCreateCoin = true :=
    List.any_eq_true.mpr ⟨_, hmem, hpred⟩
  have hrun2 : run_puzzle env (.leafPz pid) isol = .ok outI := by
    simp [run_puzzle, runPuzzleS, henv]
  have hrun1 : run_puzzle env (.delegPz l own root) (.delegSol mp (.leafPz pid) isol)
      = .ok outI := by
    simp [run_puzzle, runPuzzleS, henv, hany]
  constructor
  · intro hne
    cases hmd : mdOpt with
    | none =>
      simp [DataStore.from_spend, hph, SingletonLayer.parse_puzzle,
        NftStateLayer.parse_puzzle, parse_singleton_state_solution, hrun1,
        hmd ▸ hscan, probeResult, hrun2, hfind,
        Prog.treeHash, hne, specApplyMetadataUpd]
    | some m =>
      simp [DataStore.from_spend, hph, SingletonLayer.parse_puzzle,
        NftStateLayer.parse_puzzle, parse_singleton_state_solution, hrun1,
        hmd ▸ hscan, probeResult, hrun2, hfind,
        Prog.treeHash, hne, specApplyMetadataUpd]
  · intro heq
    cases hmd : mdOpt with
    | none =>
      simp [DataStore.from_spend, hph, SingletonLayer.parse_puzzle,
        NftStateLayer.parse_puzzle, parse_singleton_state_solution, hrun1,
        hmd ▸ hscan, probeResult, hrun2, hfind,
        Prog.treeHash, heq, specApplyMetadataUpd]
    | some m =>
      simp [DataStore.from_spend, hph, SingletonLayer.parse_puzzle,
        NftStateLayer.parse_puzzle, parse_singleton_state_solution, hrun1,
        hmd ▸ hscan, probeResult, hrun2, hfind,
        Prog.treeHash, heq, specApplyMetadataUpd]

/-- C5 witness: a concrete exit spend (fresh owner hash) and a concrete
same-hash recreation spend. -/
theorem c5_delegation_exit_witness :
    DataStore.from_spend
      (fun _ _ => [Cond.createCoin ⟨B32.raw [7], 1, []⟩])
      ⟨⟨.raw [0], .raw [9], 1⟩,
       .singletonPz (.raw [1]) (.statePz ⟨.raw [4], 0⟩ .dlUpdater
         (.delegPz (.raw [1]) (.raw [5]) .merkleNil)),
       .layered (.singletonSol (.eve (.raw [0]) 1) 1 (.stateSol
         (.delegSol [] (.leafPz 0) (.rawSol 0))))⟩ [.admin (.raw [6])]
      = .ok (some ⟨⟨Coin.coinId ⟨.raw [0], .raw [9], 1⟩,
          B32.currySingleton (.raw [1])
            (B32.curryState (specApplyMetadataUpd ⟨.raw [4], 0⟩ none).treeHash
              .dlUpdater (.raw [7])), 1⟩,
          ProofT.lineage (.raw [0])
            (B32.curryState (Metadata.treeHash ⟨.raw [4], 0⟩) .dlUpdater
              (B32.curryDeleg (.raw [1]) (.raw [5]) .merkleNil)) 1,
          ⟨.raw [1], specApplyMetadataUpd ⟨.raw [4], 0⟩ none, .raw [7], []⟩⟩)
  ∧ DataStore.from_spend
      (fun _ _ => [Cond.createCoin ⟨B32.curryDeleg (.raw [1]) (.raw [5]) .merkleNil, 1, []⟩])
      ⟨⟨.raw [0], .raw [9], 1⟩,
       .singletonPz (.raw [1]) (.statePz ⟨.raw [4], 0⟩ .dlUpdater
         (.delegPz (.raw [1]) (.raw [5]) .merkleNil)),
       .layered (.singletonSol (.eve (.raw [0]) 1) 1 (.stateSol
         (.delegSol [] (.leafPz 0) (.rawSol 0))))⟩ [.admin (.raw [6])]
      = .ok (some ⟨⟨Coin.coinId ⟨.raw [0], .raw [9], 1⟩,
          B32.currySingleton (.raw [1])
            (B32.curryState (specApplyMetadataUpd ⟨.raw [4], 0⟩ none).treeHash
              .dlUpdater (B32.curryDeleg (.raw [1]) (.raw [5]) .merkleNil)), 1⟩,
          ProofT.lineage (.raw [0])
            (B32.curryState (Metadata.treeHash ⟨.raw [4], 0⟩) .dlUpdater
              (B32.curryDeleg (.raw [1]) (.raw [5]) .merkleNil)) 1,
          ⟨.raw [1], specApplyMetadataUpd ⟨.raw [4], 0⟩ none, .raw [5],
           [.admin (.raw [6])]⟩⟩) :=
  ⟨(c5_delegation_exit (fun _ _ => [Cond.createCoin ⟨B32.raw [7], 1, []⟩])
      ⟨.raw [0], .raw [9], 1⟩ (.raw [1]) (.raw [5]) .merkleNil ⟨.raw [4], 0⟩
      .dlUpdater (.eve (.raw [0]) 1) 1 [] 0 (.rawSol 0)
      [Cond.createCoin ⟨B32.raw [7], 1, []⟩] (.raw [7]) none [.admin (.raw [6])]
      (by decide) rfl rfl rfl).1 (by decide),
   (c5_delegation_exit
      (fun _ _ => [Cond.createCoin ⟨B32.curryDeleg (.raw [1]) (.raw [5]) .merkleNil, 1, []⟩])
      ⟨.raw [0], .raw [9], 1⟩ (.raw [1]) (.raw [5]) .merkleNil ⟨.raw [4], 0⟩
      .dlUpdater (.eve (.raw [0]) 1) 1 [] 0 (.rawSol 0)
      [Cond.createCoin ⟨B32.curryDeleg (.raw [1]) (.raw [5]) .merkleNil, 1, []⟩]
      (B32.curryDeleg (.raw [1]) (.raw [5]) .merkleNil) none [.admin (.raw [6])]
      (by decide) rfl rfl rfl).2 rfl⟩

/-! ## C1: the spend/from_spend round trip -/

theorem lastSome_append_single (f : Cond → Option α) (l : List Cond) (c : Cond) :
    lastSome f (l ++ [c]) = optOr (f c) (lastSome f l) := by
  induction l with
  | nil => simp [lastSome, optOr_none_right]
  | cons a l ih =>
    rw [List.cons_append, lastSome_cons, ih, lastSome_cons]
    cases hfc : f c with
    | none => simp [optOr]
    | some x => simp [optOr]

/-- Modelled from the spec (§4.5): the recomputed successor coin — parent is
the spent coin's id; the puzzle hash is recomputed from the launcher id, the
new metadata's tree hash and the declared successor inner puzzle hash; the
amount is the declared amount. -/
def specSuccessorCoin (O : DataStore) (newMd : Metadata) (newInnerPh : B32)
    (amount : Nat) : Coin :=
  ⟨O.coin.coinId,
   B32.currySingleton O.info.launcher_id
     (B32.curryState newMd.treeHash B32.dlUpdater newInnerPh),
   amount⟩

/-- Modelled from the spec: the successor's lineage proof, referring back to
the spent coin and its state-layer puzzle. -/
def specSuccessorProof (O : DataStore) (stateInnerHash : B32) : ProofT :=
  .lineage O.coin.parent_coin_info
    (B32.curryState O.info.metadata.treeHash B32.dlUpdater stateInnerHash)
    O.coin.amount

/-- The delegation layer's own tree hash for an object's authorization set. -/
def specDelegationLayerHash (O : DataStore) : B32 :=
  .curryDeleg O.info.launcher_id O.info.owner_puzzle_hash
    (merkleRoot (O.info.delegated_puzzles.map DelegatedPuzzle.puzzleHash))

/-- Modelled from the spec (§4.5, §8 Round trip): predicted successor state
when the object carries no authorization set — the owner hash is the spent
inner puzzle's own hash and the authorization set stays empty. -/
def specPredictedNoAuth (O : DataStore) (I : Spend) (cc : CreateCoinC)
    (newMd : Metadata) : DataStore :=
  ⟨specSuccessorCoin O newMd cc.puzzle_hash cc.amount,
   specSuccessorProof O I.puzzle.treeHash,
   ⟨O.info.launcher_id, newMd, I.puzzle.treeHash, []⟩⟩

/-- Modelled from the spec (§4.5): predicted successor state when the
delegation layer is kept (no-op recreation, or a recreation synthesized by
the delegation layer itself): the layer's curried owner hash and the
caller-supplied authorization set carry over. -/
def specPredictedKept (O : DataStore) (newMd : Metadata) (newInnerPh : B32)
    (amount : Nat) : DataStore :=
  ⟨specSuccessorCoin O newMd newInnerPh amount,
   specSuccessorProof O (specDelegationLayerHash O),
   ⟨O.info.launcher_id, newMd, O.info.owner_puzzle_hash, O.info.delegated_puzzles⟩⟩

/-- Modelled from the spec (§4.5, §8 Delegation exit): predicted successor
state when the delegated puzzle exits the delegation layer: the owner hash is
the emitted puzzle hash and the authorization set becomes empty. -/
def specPredictedExit (O : DataStore) (newMd : Metadata) (X : B32)
    (amount : Nat) : DataStore :=
  ⟨specSuccessorCoin O newMd X amount,
   specSuccessorProof O (specDelegationLayerHash O),
   ⟨O.info.launcher_id, newMd, X, []⟩⟩

/-- C1: Round trip of the object state engine: reconstructing via
`from_spend` the `CoinSpend` produced by `spend` yields exactly the object
state predicted from the object, the inner spend and the metadata-update
rule, in all three authorization-set cases — no delegated puzzles; delegated
puzzles present and kept (whether the delegation layer synthesized the
recreation or it was recreated with its own hash); and delegated puzzles
being exited. -/
theorem c1_spend_from_spend_round_trip (env : PuzzleEnv) (O : DataStore)
    (pid : Nat) (isol : Sol) (outI : List Cond)
    (hph : O.coin.puzzle_hash ≠ B32.launcherConst)
    (henv : env pid isol = outI) :
    (O.info.delegated_puzzles = [] →
      ∀ cc, specLastOddCreateCoin outI = some cc → cc.memos.length ≤ 1 →
      DataStore.from_spend env (O.spend ⟨.leafPz pid, isol⟩) O.info.delegated_puzzles
        = .ok (some (specPredictedNoAuth O ⟨.leafPz pid, isol⟩ cc
            (specApplyMetadataUpd O.info.metadata (specLastMetadata outI)))))
  ∧ (O.info.delegated_puzzles ≠ [] →
      (∀ cnd ∈ outI, isOddCreateCoin cnd = false) →
      DataStore.from_spend env (O.spend ⟨.leafPz pid, isol⟩) O.info.delegated_puzzles
        = .ok (some (specPredictedKept O
            (specApplyMetadataUpd O.info.metadata (specLastMetadata outI))
            (specDelegationLayerHash O) 1)))
  ∧ (O.info.delegated_puzzles ≠ [] →
      ∀ cc, specLastOddCreateCoin outI = some cc →
      outI.find? isOddCreateCoin = some (.createCoin cc) →
      cc.memos.length ≤ 1 →
      cc.puzzle_hash = specDelegationLayerHash O →
      DataStore.from_spend env (O.spend ⟨.leafPz pid, isol⟩) O.info.delegated_puzzles
        = .ok (some (specPredictedKept O
            (specApplyMetadataUpd O.info.metadata (specLastMetadata outI))
            cc.puzzle_hash cc.amount)))
  ∧ (O.info.delegated_puzzles ≠ [] →
      ∀ cc, specLastOddCreateCoin outI = some cc →
      outI.find? isOddCreateCoin = some (.createCoin cc) →
      cc.memos.length ≤ 1 →
      cc.puzzle_hash ≠ specDelegationLayerHash O →
      DataStore.from_spend env (O.spend ⟨.leafPz pid, isol⟩) O.info.delegated_puzzles
        = .ok (some (specPredictedExit O
            (specApplyMetadataUpd O.info.metadata (specLastMetadata outI))
            cc.puzzle_hash cc.amount))) := by
  refine ⟨?_, ?_, ?_, ?_⟩
  · -- no authorization set
    intro hdps cc hcc hlen
    have hdE : O.info.delegated_puzzles.isEmpty = true := by simp [hdps]
    have hrun : run_puzzle env (.leafPz pid) isol = .ok outI := by
      simp [run_puzzle, runPuzzleS, henv]
    have hscan : scanConds outI = (some cc, specLastMetadata outI) := by
      rw [scanConds_eq, hcc]
    have hlen2 : ¬ (1 < cc.memos.length) := by omega
    cases hmd : specLastMetadata outI with
    | none =>
      simp [DataStore.spend, hdE, DataStore.from_spend, hph,
        SingletonLayer.parse_puzzle, NftStateLayer.parse_puzzle,
        parse_singleton_state_solution, hrun, hmd ▸ hscan, hlen2, probeResult,
        Prog.treeHash, specPredictedNoAuth, specSuccessorCoin,
        specSuccessorProof, specApplyMetadataUpd]
    | some m =>
      simp [DataStore.spend, hdE, DataStore.from_spend, hph,
        SingletonLayer.parse_puzzle, NftStateLayer.parse_puzzle,
        parse_singleton_state_solution, hrun, hmd ▸ hscan, hlen2, probeResult,
        Prog.treeHash, specPredictedNoAuth, specSuccessorCoin,
        specSuccessorProof, specApplyMetadataUpd]
  · -- authorization set present; delegation layer synthesizes the recreation
    intro hdps hnone
    have hdE : O.info.delegated_puzzles.isEmpty = false := by
      cases hl : O.info.delegated_puzzles with
      | nil => exact absurd hl hdps
      | cons a as => simp [hl]
    have hany : outI.any isOddCreateCoin = false := by
      rw [List.any_eq_false]
      intro x hx
      simp [hnone x hx]
    have hfindn : outI.find? isOddCreateCoin = none := by
      rw [List.find?_eq_none]
      intro x hx
      simp [hnone x hx]
    have hrun2 : run_puzzle env (.leafPz pid) isol = .ok outI := by
      simp [run_puzzle, runPuzzleS, henv]
    have hrun1 : ∀ gp : List B32, run_puzzle env
        (.delegPz O.info.launcher_id O.info.owner_puzzle_hash
          (merkleRoot (O.info.delegated_puzzles.map DelegatedPuzzle.puzzleHash)))
        (.delegSol gp (.leafPz pid) isol)
        = .ok (outI ++ [Cond.createCoin ⟨B32.curryDeleg O.info.launcher_id
            O.info.owner_puzzle_hash
            (merkleRoot (O.info.delegated_puzzles.map DelegatedPuzzle.puzzleHash)), 1,
            [MemoB.b32 O.info.launcher_id]⟩]) := by
      intro gp
      simp [run_puzzle, runPuzzleS, henv, hany]
    have hscan : scanConds (outI ++ [Cond.createCoin ⟨B32.curryDeleg O.info.launcher_id
        O.info.owner_puzzle_hash
        (merkleRoot (O.info.delegated_puzzles.map DelegatedPuzzle.puzzleHash)), 1,
        [MemoB.b32 O.info.launcher_id]⟩])
        = (some ⟨B32.curryDeleg O.info.launcher_id O.info.owner_puzzle_hash
            (merkleRoot (O.info.delegated_puzzles.map DelegatedPuzzle.puzzleHash)), 1,
            [MemoB.b32 O.info.launcher_id]⟩,
           specLastMetadata outI) := by
      rw [scanConds_eq]
      rw [specLastOddCreateCoin, specLastMetadata, lastSome_append_single,
        lastSome_append_single]
      simp [oddCCOf, newMdOf, optOr]
      rfl
    cases hmd : specLastMetadata outI with
    | none =>
      simp [DataStore.spend, hdE, DataStore.from_spend, hph,
        SingletonLayer.parse_puzzle, NftStateLayer.parse_puzzle,
        parse_singleton_state_solution, hrun1, hmd ▸ hscan, probeResult, hrun2,
        hfindn, Prog.treeHash, specPredictedKept, specSuccessorCoin,
        specSuccessorProof, specApplyMetadataUpd, specDelegationLayerHash]
    | some m =>
      simp [DataStore.spend, hdE, DataStore.from_spend, hph,
        SingletonLayer.parse_puzzle, NftStateLayer.parse_puzzle,
        parse_singleton_state_solution, hrun1, hmd ▸ hscan, probeResult, hrun2,
        hfindn, Prog.treeHash, specPredictedKept, specSuccessorCoin,
        specSuccessorProof, specApplyMetadataUpd, specDelegationLayerHash]
  · -- authorization set present; no-op recreation with the same hash
    intro hdps cc hcc hfind hlen hsame
    have hdE : O.info.delegated_puzzles.isEmpty = false := by
      cases hl : O.info.delegated_puzzles with
      | nil => exact absurd hl hdps
      | cons a as => simp [hl]
    have hmem : (Cond.createCoin cc) ∈ outI := List.mem_of_find?_eq_some hfind
    have hpred : isOddCreateCoin (Cond.createCoin cc) = true :=
      List.find?_some hfind
    have hany : outI.any isOddCreateCoin = true :=
      List.any_eq_true.mpr ⟨_, hmem, hpred⟩
    have hrun2 : run_puzzle env (.leafPz pid) isol = .ok outI := by
      simp [run_puzzle, runPuzzleS, henv]
    have hrun1 : ∀ gp : List B32, run_puzzle env
        (.delegPz O.info.launcher_id O.info.owner_puzzle_hash
          (merkleRoot (O.info.delegated_puzzles.map DelegatedPuzzle.puzzleHash)))
        (.delegSol gp (.leafPz pid) isol)
        = .ok outI := by
      intro gp
      simp [run_puzzle, runPuzzleS, henv, hany]
    have hscan : scanConds outI = (some cc, specLastMetadata outI) := by
      rw [scanConds_eq, hcc]
    have hlen2 : ¬ (1 < cc.memos.length) := by omega
    cases hmd : specLastMetadata outI with
    | none =>
      simp [DataStore.spend, hdE, DataStore.from_spend, hph,
        SingletonLayer.parse_puzzle, NftStateLayer.parse_puzzle,
        parse_singleton_state_solution, hrun1, hmd ▸ hscan, hlen2, probeResult,
        hrun2, hfind, Prog.treeHash, hsame, specPredictedKept,
        specSuccessorCoin, specSuccessorProof, specApplyMetadataUpd,
        specDelegationLayerHash]
    | some m =>
      simp [DataStore.spend, hdE, DataStore.from_spend, hph,
        SingletonLayer.parse_puzzle, NftStateLayer.parse_puzzle,
        parse_singleton_state_solution, hrun1, hmd ▸ hscan, hlen2, probeResult,
        hrun2, hfind, Prog.treeHash, hsame, specPredictedKept,
        specSuccessorCoin, specSuccessorProof, specApplyMetadataUpd,
        specDelegationLayerHash]
  · -- authorization set being exited
    intro hdps cc hcc hfind hlen hne
    have hdE : O.info.delegated_puzzles.isEmpty = false := by
      cases hl : O.info.delegated_puzzles with
      | nil => exact absurd hl hdps
      | cons a as => simp [hl]
    have hmem : (Cond.createCoin cc) ∈ outI := List.mem_of_find?_eq_some hfind
    have hpred : isOddCreateCoin (Cond.createCoin cc) = true :=
      List.find?_some hfind
    have hany : outI.any isOddCreateCoin = true :=
      List.any_eq_true.mpr ⟨_, hmem, hpred⟩
    have hrun2 : run_puzzle env (.leafPz pid) isol = .ok outI := by
      simp [run_puzzle, runPuzzleS, henv]
    have hrun1 : ∀ gp : List B32, run_puzzle env
        (.delegPz O.info.launcher_id O.info.owner_puzzle_hash
          (merkleRoot (O.info.delegated_puzzles.map DelegatedPuzzle.puzzleHash)))
        (.delegSol gp (.leafPz pid) isol)
        = .ok outI := by
      intro gp
      simp [run_puzzle, runPuzzleS, henv, hany]
    have hscan : scanConds outI = (some cc, specLastMetadata outI) := by
      rw [scanConds_eq, hcc]
    have hlen2 : ¬ (1 < cc.memos.length) := by omega
    cases hmd : specLastMetadata outI with
    | none =>
      simp [DataStore.spend, hdE, DataStore.from_spend, hph,
        SingletonLayer.parse_puzzle, NftStateLayer.parse_puzzle,
        parse_singleton_state_solution, hrun1, hmd ▸ hscan, hlen2, probeResult,
        hrun2, hfind, Prog.treeHash, specPredictedExit,
        specSuccessorCoin, specSuccessorProof, specApplyMetadataUpd,
        specDelegationLayerHash]
      intro h2
      exact absurd h2 (by simpa [specDelegationLayerHash] using hne)
    | some m =>
      simp [DataStore.spend, hdE, DataStore.from_spend, hph,
        SingletonLayer.parse_puzzle, NftStateLayer.parse_puzzle,
        parse_singleton_state_solution, hrun1, hmd ▸ hscan, hlen2, probeResult,
        hrun2, hfind, Prog.treeHash, specPredictedExit,
        specSuccessorCoin, specSuccessorProof, specApplyMetadataUpd,
        specDelegationLayerHash]
      intro h2
      exact absurd h2 (by simpa [specDelegationLayerHash] using hne)

/-- C1 witness: the round trip evaluated at concrete objects and inner spends
in each authorization-set case — no delegated puzzles; present and kept (both
the synthesized-recreation and same-hash-recreation sub-cases); and exited. -/
theorem c1_spend_from_spend_round_trip_witness :
    DataStore.from_spend (fun _ _ => [Cond.createCoin ⟨.raw [7], 1, []⟩])
      ((⟨⟨.raw [0], .raw [9], 1⟩, .eve (.raw [0]) 1,
         ⟨.raw [1], ⟨.raw [4], 0⟩, .raw [5], []⟩⟩ : DataStore).spend
        ⟨.leafPz 0, .rawSol 0⟩) []
      = .ok (some (specPredictedNoAuth
          ⟨⟨.raw [0], .raw [9], 1⟩, .eve (.raw [0]) 1,
           ⟨.raw [1], ⟨.raw [4], 0⟩, .raw [5], []⟩⟩
          ⟨.leafPz 0, .rawSol 0⟩ ⟨.raw [7], 1, []⟩
          (specApplyMetadataUpd ⟨.raw [4], 0⟩
            (specLastMetadata [Cond.createCoin ⟨.raw [7], 1, []⟩]))))
  ∧ DataStore.from_spend (fun _ _ => [Cond.newMetadata ⟨.raw [8], 1⟩])
      ((⟨⟨.raw [0], .raw [9], 1⟩, .eve (.raw [0]) 1,
         ⟨.raw [1], ⟨.raw [4], 0⟩, .raw [5], [.admin (.raw [6])]⟩⟩ : DataStore).spend
        ⟨.leafPz 0, .rawSol 0⟩) [.admin (.raw [6])]
      = .ok (some (specPredictedKept
          ⟨⟨.raw [0], .raw [9], 1⟩, .eve (.raw [0]) 1,
           ⟨.raw [1], ⟨.raw [4], 0⟩, .raw [5], [.admin (.raw [6])]⟩⟩
          (specApplyMetadataUpd ⟨.raw [4], 0⟩
            (specLastMetadata [Cond.newMetadata ⟨.raw [8], 1⟩]))
          (specDelegationLayerHash
            ⟨⟨.raw [0], .raw [9], 1⟩, .eve (.raw [0]) 1,
             ⟨.raw [1], ⟨.raw [4], 0⟩, .raw [5], [.admin (.raw [6])]⟩⟩) 1))
  ∧ DataStore.from_spend
      (fun _ _ => [Cond.createCoin
        ⟨.curryDeleg (.raw [1]) (.raw [5]) (merkleRoot [.adminCurry (.raw [6])]), 1, []⟩])
      ((⟨⟨.raw [0], .raw [9], 1⟩, .eve (.raw [0]) 1,
         ⟨.raw [1], ⟨.raw [4], 0⟩, .raw [5], [.admin (.raw [6])]⟩⟩ : DataStore).spend
        ⟨.leafPz 0, .rawSol 0⟩) [.admin (.raw [6])]
      = .ok (some (specPredictedKept
          ⟨⟨.raw [0], .raw [9], 1⟩, .eve (.raw [0]) 1,
           ⟨.raw [1], ⟨.raw [4], 0⟩, .raw [5], [.admin (.raw [6])]⟩⟩
          (specApplyMetadataUpd ⟨.raw [4], 0⟩
            (specLastMetadata [Cond.createCoin
              ⟨.curryDeleg (.raw [1]) (.raw [5]) (merkleRoot [.adminCurry (.raw [6])]), 1, []⟩]))
          (B32.curryDeleg (.raw [1]) (.raw [5]) (merkleRoot [.adminCurry (.raw [6])])) 1))
  ∧ DataStore.from_spend (fun _ _ => [Cond.createCoin ⟨.raw [7], 1, []⟩])
      ((⟨⟨.raw [0], .raw [9], 1⟩, .eve (.raw [0]) 1,
         ⟨.raw [1], ⟨.raw [4], 0⟩, .raw [5], [.admin (.raw [6])]⟩⟩ : DataStore).spend
        ⟨.leafPz 0, .rawSol 0⟩) [.admin (.raw [6])]
      = .ok (some (specPredictedExit
          ⟨⟨.raw [0], .raw [9], 1⟩, .eve (.raw [0]) 1,
           ⟨.raw [1], ⟨.raw [4], 0⟩, .raw [5], [.admin (.raw [6])]⟩⟩
          (specApplyMetadataUpd ⟨.raw [4], 0⟩
            (specLastMetadata [Cond.createCoin ⟨.raw [7], 1, []⟩]))
          (.raw [7]) 1)) :=
  ⟨(c1_spend_from_spend_round_trip (fun _ _ => [Cond.createCoin ⟨.raw [7], 1, []⟩])
      ⟨⟨.raw [0], .raw [9], 1⟩, .eve (.raw [0]) 1,
       ⟨.raw [1], ⟨.raw [4], 0⟩, .raw [5], []⟩⟩
      0 (.rawSol 0) [Cond.createCoin ⟨.raw [7], 1, []⟩]
      (by decide) rfl).1 rfl ⟨.raw [7], 1, []⟩ rfl (by decide),
   (c1_spend_from_spend_round_trip (fun _ _ => [Cond.newMetadata ⟨.raw [8], 1⟩])
      ⟨⟨.raw [0], .raw [9], 1⟩, .eve (.raw [0]) 1,
       ⟨.raw [1], ⟨.raw [4], 0⟩, .raw [5], [.admin (.raw [6])]⟩⟩
      0 (.rawSol 0) [Cond.newMetadata ⟨.raw [8], 1⟩]
      (by decide) rfl).2.1 (by decide) (by decide),
   (c1_spend_from_spend_round_trip
      (fun _ _ => [Cond.createCoin
        ⟨.curryDeleg (.raw [1]) (.raw [5]) (merkleRoot [.adminCurry (.raw [6])]), 1, []⟩])
      ⟨⟨.raw [0], .raw [9], 1⟩, .eve (.raw [0]) 1,
       ⟨.raw [1], ⟨.raw [4], 0⟩, .raw [5], [.admin (.raw [6])]⟩⟩
      0 (.rawSol 0)
      [Cond.createCoin
        ⟨.curryDeleg (.raw [1]) (.raw [5]) (merkleRoot [.adminCurry (.raw [6])]), 1, []⟩]
      (by decide) rfl).2.2.1 (by decide)
      ⟨.curryDeleg (.raw [1]) (.raw [5]) (merkleRoot [.adminCurry (.raw [6])]), 1, []⟩
      rfl rfl (by decide) rfl,
   (c1_spend_from_spend_round_trip (fun _ _ => [Cond.createCoin ⟨.raw [7], 1, []⟩])
      ⟨⟨.raw [0], .raw [9], 1⟩, .eve (.raw [0]) 1,
       ⟨.raw [1], ⟨.raw [4], 0⟩, .raw [5], [.admin (.raw [6])]⟩⟩
      0 (.rawSol 0) [Cond.createCoin ⟨.raw [7], 1, []⟩]
      (by decide) rfl).2.2.2 (by decide) ⟨.raw [7], 1, []⟩
      rfl rfl (by decide) (by decide)⟩
